import Mathlib

/-!
# The command shell of `src/hw1/shell.c`

A shallow embedding of the shell core: the built-in command table and `lookup`,
the executable resolver `get_exe_file`, the built-ins `cmd_help`, `cmd_cd`,
`cmd_pwd`, `cmd_exit`, and the read-tokenize-dispatch loop of `main`.

Conventions of the embedding.

* A C string is the list of its characters before the terminating NUL; a
  `char *` that may be `NULL` is an `Option`.
* Calls into the operating system (`access`, `getenv`, `chdir`, `getcwd`,
  `fork`, `execv`, `malloc`) are answered by oracles collected in `Sys`; every
  call that the outside world can observe is appended to the trace of the
  state, in program order.
* `strdup` and the `malloc` of `get_exe_file` are not checked by the source and
  are taken to succeed; the `malloc` of `main` is checked by the source and may
  fail in the model.
* `line_num` is a C `int` of 32 bits: the model keeps its value in `Int` and
  `++line_num` is `int_incr`, which stays in the range of `int` by wrapping at
  `INT_MAX`, where C leaves the increment undefined.
-/

namespace Shell

/-! ## C strings -/

/-- The characters of a C string, without the terminating NUL. -/
abbrev CStr := List Char

/-- The sign of `strcmp(a, b)`: zero for equal strings, negative when `a` sorts
first, positive otherwise. -/
def strcmp : CStr → CStr → Int
  | [], [] => 0
  | [], _ :: _ => -1
  | _ :: _, [] => 1
  | a :: s, b :: t =>
    if a = b then strcmp s t else if a.toNat < b.toNat then -1 else 1

/-- The call `strchr(s, c) != NULL` for a character `c` other than NUL. -/
def strchr_found (s : CStr) (c : Char) : Bool := s.contains c

/-- The call `strtok_r(str, delim, &saveptr)`: the token returned (`none` for
`NULL`) and the new value of `saveptr`. Leading delimiters are skipped, the token
runs up to the next delimiter, which is overwritten by NUL, and `saveptr` is left
just after it (or at the end of the string). -/
def strtok_r (str : Option CStr) (delim : CStr) (saveptr : CStr) : Option CStr × CStr :=
  let s := (str.getD saveptr).dropWhile (fun c => delim.contains c)
  if s = [] then (none, s)
  else
    let tok := s.takeWhile (fun c => !delim.contains c)
    match s.dropWhile (fun c => !delim.contains c) with
    | [] => (some tok, [])
    | _ :: rest => (some tok, rest)

/-- The text `printf("%d", n)` writes. -/
def fmt_d (n : Int) : CStr := (toString n).data

/-! ## Observable effects -/

/-- The calls of the shell that the outside world can observe. -/
inductive Event
  | stdout (text : CStr)
  | stderr (text : CStr)
  | getenv (name : CStr)
  | access (path : CStr)
  | chdir (path : Option CStr)
  | getcwd
  | fork
  | execv (exe : CStr) (argv : List (Option CStr))
  | wait
  | tokens_destroy (tokens : List CStr)
  deriving DecidableEq, Repr

/-! ## The command table and `lookup` (shell.c lines 36-51, 93-99) -/

/-- The four handlers a table entry can point to. -/
inductive cmd_fun_t
  | cmd_help
  | cmd_cd
  | cmd_pwd
  | cmd_exit
  deriving DecidableEq, Repr

/-- An entry of the built-in command table: handler, name, one-line description. -/
structure fun_desc_t where
  func : cmd_fun_t
  cmd : CStr
  doc : CStr
  deriving DecidableEq, Repr

/-- The built-in command table. -/
def cmd_table : List fun_desc_t :=
  [ ⟨.cmd_help, "?".data, "show this help menu".data⟩,
    ⟨.cmd_cd, "cd".data, "change working directory".data⟩,
    ⟨.cmd_pwd, "pwd".data, "print current working directory".data⟩,
    ⟨.cmd_exit, "exit".data, "exit the command shell".data⟩ ]

/-- The loop of `lookup` from index `i` over the entries not yet visited. -/
def lookup_from (cmd : Option CStr) : Nat → List fun_desc_t → Int
  | _, [] => -1
  | i, e :: rest =>
    match cmd with
    | some c => if strcmp e.cmd c = 0 then (i : Int) else lookup_from cmd (i + 1) rest
    | none => lookup_from cmd (i + 1) rest

/-- Looks up the built-in command: its index in `cmd_table`, or `-1`. -/
def lookup (cmd : Option CStr) : Int := lookup_from cmd 0 cmd_table

/-! ## The executable resolver (shell.c lines 127-168) -/

/-- The composed path `sprintf(fullcmd, "%s/%s", toknptr, cmd)`. -/
def compose_path (toknptr cmd : CStr) : CStr := toknptr ++ '/' :: cmd

/-- The `for` loop of `get_exe_file` over the tokens of the duplicated `PATH`:
`srchptr` is the first argument of the next `strtok_r` call and `saveptr` its
saved position. Returns the executable found and the `access` calls made. -/
def path_loop (access_x : CStr → Bool) (cmd : CStr) (srchptr : Option CStr) (saveptr : CStr) :
    Option CStr × List Event :=
  match h : strtok_r srchptr ":".data saveptr with
  | (none, _) => (none, [])
  | (some toknptr, saveptr') =>
    let fullcmd := compose_path toknptr cmd
    if access_x fullcmd then (some fullcmd, [Event.access fullcmd])
    else
      let r := path_loop access_x cmd none saveptr'
      (r.1, Event.access fullcmd :: r.2)
termination_by (srchptr.getD saveptr).length
decreasing_by
  unfold strtok_r at h
  simp only [] at h
  generalize hd : List.dropWhile (fun c => [':'].contains c) (srchptr.getD saveptr) = d at h
  have hlen : d.length ≤ (srchptr.getD saveptr).length :=
    hd ▸ (List.dropWhile_suffix _).length_le
  have hlen2 := (List.dropWhile_suffix (fun c => !([':'].contains c)) (l := d)).length_le
  split_ifs at h with h0
  · exact absurd (congrArg Prod.fst h) (by simp)
  · have hpos := List.length_pos.mpr h0
    split at h
    · obtain ⟨-, rfl⟩ := Prod.mk.inj h
      simp only [Option.getD_none, List.length_nil]; omega
    · rename_i x r heq
      obtain ⟨-, rfl⟩ := Prod.mk.inj h
      rw [heq] at hlen2
      simp only [Option.getD_none, List.length_cons] at hlen2 ⊢; omega

/-- The complete path to the executable file for `cmd`, or `none` (`NULL`),
with the calls made on the way. `access_x p` tells whether `access(p, X_OK)`
succeeds and `path_env` is the value of `getenv("PATH")`. -/
def get_exe_file (access_x : CStr → Bool) (path_env : Option CStr) (cmd : Option CStr) :
    Option CStr × List Event :=
  match cmd with
  | none => (none, [])
  | some cmd =>
    if strchr_found cmd '/' then
      if access_x cmd then (some cmd, [Event.access cmd]) else (none, [Event.access cmd])
    else
      match path_env with
      | none => (none, [Event.getenv "PATH".data])
      | some path =>
        let r := path_loop access_x cmd (some path) []
        (r.1, Event.getenv "PATH".data :: r.2)

/-! ## The tokenizer interface (tokenizer.h) -/

/-- Modelled from the spec: the length of a token sequence. The tokenizer is an
external collaborator whose source is not among the files; the spec gives it as
"an ordered sequence of argument strings" with "sequence length, indexed access
to an element, and explicit release". -/
def tokens_get_length (tokens : List CStr) : Nat := tokens.length

/-- Modelled from the spec: indexed access to a token of the sequence, with the
null pointer past its end (the spec's "the first token is null" for a line with
no tokens); the tokenizer's source is not among the files. -/
def tokens_get_token (tokens : List CStr) (n : Nat) : Option CStr := tokens[n]?

/-! ## Shell state and the operating system -/

/-- What the shell's process has done and where it stands: the global
`shell_is_interactive`, the working directory of the process, the local
`line_num` of `main`, and the calls made so far. -/
structure State where
  shell_is_interactive : Bool
  cwd : CStr
  line_num : Int
  trace : List Event
  deriving DecidableEq, Repr

/-- Appends calls to the trace. -/
def State.emit (s : State) (evs : List Event) : State :=
  { s with trace := s.trace ++ evs }

/-- The answers of the tokenizer, the C library and the kernel. Each oracle sees
the state at the time of the call, so answers may change as the run proceeds.

* `tokenize line` is the token sequence of a line;
* `path_env` is `getenv("PATH")`;
* `access_x s p` tells whether `access(p, X_OK) != -1`;
* `chdir s p` is the new working directory, or the `errno` of the failed call;
* `getcwd s size` is the string `getcwd` stores, or the `errno` of the failed call;
* `malloc s n` is the indeterminate initial content of the block, slot by slot,
  or the `errno` of the failed call;
* `fork s` is the value `fork()` returns in the process being followed;
* `execv s exe argv` is `none` when the image is replaced, else the `errno`. -/
structure Sys where
  tokenize : CStr → List CStr
  path_env : Option CStr
  access_x : State → CStr → Bool
  chdir : State → Option CStr → Except Nat CStr
  getcwd : State → Nat → Except Nat CStr
  malloc : State → Nat → Except Nat (Nat → Option CStr)
  fork : State → Int
  execv : State → CStr → List (Option CStr) → Option Nat
  strerror : Nat → CStr
  sizeof_char_ptr : Nat

/-- The constant `PATH_MAX` of `linux/limits.h`. -/
def PATH_MAX : Nat := 4096

/-- How a call of a built-in ends: it returns a status, or it never returns
because the process exited. -/
inductive Call
  | returned (status : Int) (s : State)
  | exited (status : Int) (s : State)
  deriving DecidableEq, Repr

/-- The text of `fprintf(stderr, "error: %s\n", strerror(errno))`. -/
def error_text (sys : Sys) (errno : Nat) : CStr :=
  "error: ".data ++ sys.strerror errno ++ "\n".data

/-! ## The built-ins (shell.c lines 53-91) -/

/-- Prints a helpful description for the given command. -/
def cmd_help (s : State) (_tokens : List CStr) : Call :=
  .returned 1
    (s.emit (cmd_table.map fun e => Event.stdout (e.cmd ++ " - ".data ++ e.doc ++ "\n".data)))

/-- Changes working directory. -/
def cmd_cd (sys : Sys) (s : State) (tokens : List CStr) : Call :=
  if 2 ≠ tokens_get_length tokens then
    .returned 1 (s.emit [Event.stderr "usage: cd <dir>\n".data])
  else
    let dir := tokens_get_token tokens 1
    match sys.chdir s dir with
    | .error errno =>
      .returned 1 (s.emit [Event.chdir dir, Event.stderr (error_text sys errno)])
    | .ok cwd => .returned 0 ({ s with cwd := cwd }.emit [Event.chdir dir])

/-- Prints working directory. -/
def cmd_pwd (sys : Sys) (s : State) (tokens : List CStr) : Call :=
  if 1 ≠ tokens_get_length tokens then
    .returned 1 (s.emit [Event.stderr "usage: pwd\n".data])
  else
    match sys.getcwd s PATH_MAX with
    | .error errno => .returned 1 (s.emit [Event.getcwd, Event.stderr (error_text sys errno)])
    | .ok wd => .returned 0 (s.emit [Event.getcwd, Event.stdout (wd ++ "\n".data)])

/-- Exits this shell. -/
def cmd_exit (s : State) (_tokens : List CStr) : Call := .exited 0 s

/-- The call through the handler pointer of a table entry. -/
def call_fun (sys : Sys) (f : cmd_fun_t) (s : State) (tokens : List CStr) : Call :=
  match f with
  | .cmd_help => cmd_help s tokens
  | .cmd_cd => cmd_cd sys s tokens
  | .cmd_pwd => cmd_pwd sys s tokens
  | .cmd_exit => cmd_exit s tokens

/-! ## The loop of `main` (shell.c lines 170-238) -/

/-- How one iteration of the loop, or the whole run, ends for the process being
followed: `next` goes back to `fgets`; `exited` is a call of `exit` or the
return from `main`; `replaced` is the child whose `execv` succeeded; `fault` is a
read past the end of `cmd_table`. -/
inductive Outcome
  | next (s : State)
  | exited (status : Int) (s : State)
  | replaced (exe : CStr) (argv : List (Option CStr)) (s : State)
  | fault (s : State)
  deriving DecidableEq, Repr

/-- The loop `for (i = 0; i < narg; i++) args[i] = tokens_get_token(tokens, i)`,
with `k` iterations left to run from index `i`. -/
def fill_args (tokens : List CStr) : Nat → Nat → List (Option CStr) → List (Option CStr)
  | 0, _, args => args
  | k + 1, i, args => fill_args tokens k (i + 1) (args.set i (tokens_get_token tokens i))

/-- The array `args` as handed to `execv`: a fresh block of `narg + 1` slots
with indeterminate content `junk`, filled by the loop and terminated by `NULL`. -/
def build_args (tokens : List CStr) (junk : Nat → Option CStr) : List (Option CStr) :=
  let narg := tokens_get_length tokens
  let args := (List.range (narg + 1)).map junk
  (fill_args tokens narg 0 args).set narg none

/-- The dispatch of one line (shell.c lines 184-227): the built-in found by
`lookup`, or resolution and launch of an external program. -/
def dispatch (sys : Sys) (s : State) (tokens : List CStr) : Outcome :=
  let fundex := lookup (tokens_get_token tokens 0)
  if fundex ≥ 0 then
    match cmd_table[fundex.toNat]? with
    | none => .fault s
    | some e =>
      match call_fun sys e.func s tokens with
      | .returned _ s1 => .next s1
      | .exited status s1 => .exited status s1
  else
    let cmd := tokens_get_token tokens 0
    let r := get_exe_file (sys.access_x s) sys.path_env cmd
    let s1 := s.emit r.2
    match r.1 with
    | some exe =>
      let narg := tokens_get_length tokens
      match sys.malloc s1 ((narg + 1) * sys.sizeof_char_ptr) with
      | .error errno => .exited 1 (s1.emit [Event.stderr (error_text sys errno)])
      | .ok junk =>
        let args := build_args tokens junk
        let pid := sys.fork s1
        let s2 := s1.emit [Event.fork]
        if pid = 0 then
          match sys.execv s2 exe args with
          | none => .replaced exe args (s2.emit [Event.execv exe args])
          | some errno =>
            .exited 1 (s2.emit [Event.execv exe args, Event.stderr (error_text sys errno)])
        else .next (s2.emit [Event.wait])
    | none =>
      match cmd with
      | some c =>
        .next (s1.emit [Event.stdout ("Unknown command '".data ++ c ++ "'.\n".data)])
      | none => .next s1

/-- The value of `++n` for a 32-bit `int n`: `n + 1` reduced to the range
`-2147483648 .. 2147483647`. Below `INT_MAX` this is `n + 1`; at `INT_MAX` the C
increment is undefined and the model wraps to `INT_MIN`, as two's-complement
hardware does. -/
def int_incr (n : Int) : Int := (n + 1 + 2147483648) % 4294967296 - 2147483648

/-- The prompt `fprintf(stdout, "%d: ", ++line_num)` of an interactive shell. -/
def prompt (s : State) : State :=
  if s.shell_is_interactive then
    { s with line_num := int_incr s.line_num }.emit
      [Event.stdout (fmt_d (int_incr s.line_num) ++ ": ".data)]
  else s

/-- One iteration of the `while` loop of `main` on the line just read: tokenize,
dispatch, prompt, release the tokens. -/
def loop_body (sys : Sys) (s : State) (line : CStr) : Outcome :=
  let tokens := sys.tokenize line
  match dispatch sys s tokens with
  | .next s1 => .next ((prompt s1).emit [Event.tokens_destroy tokens])
  | o => o

/-- How many characters `fgets(line, size, stdin)` consumes from a non-empty
stream: up to and including the first newline, at most `size - 1`. -/
def fgets_count (size : Nat) (stream : List Char) : Nat :=
  min (size - 1) (min ((stream.takeWhile (fun c => c != '\n')).length + 1) stream.length)

/-- The call `fgets(line, size, stdin)` with `size > 1`: `none` at end of input,
else the C string left in the buffer and the rest of the stream. -/
def fgets (size : Nat) (stream : List Char) : Option (CStr × List Char) :=
  if stream = [] then none
  else
    let k := fgets_count size stream
    some ((stream.take k).takeWhile (fun c => c != '\x00'), stream.drop k)

/-- The `while (fgets(line, 4096, stdin))` loop of `main`. -/
def main_loop (sys : Sys) (s : State) (stream : List Char) : Outcome :=
  match h : fgets 4096 stream with
  | none => .exited 0 s
  | some (line, rest) =>
    match loop_body sys s line with
    | .next s1 => main_loop sys s1 rest
    | o => o
termination_by stream.length
decreasing_by
  unfold fgets at h
  split_ifs at h with h0
  obtain ⟨-, rfl⟩ := Prod.mk.inj (Option.some.inj h)
  have hpos := List.length_pos.mpr h0
  simp only [fgets_count, List.length_drop]
  omega

/-- The function `main` after `init_shell` has set `shell_is_interactive`: the
first prompt, then the loop. -/
def main (sys : Sys) (shell_is_interactive : Bool) (cwd : CStr) (stream : List Char) : Outcome :=
  let s : State := { shell_is_interactive, cwd, line_num := 0, trace := [] }
  let s := if shell_is_interactive then s.emit [Event.stdout (fmt_d 0 ++ ": ".data)] else s
  main_loop sys s stream

/-! ## Notions used to state the properties -/

/-- The non-empty maximal colon-free segments of a search-path value, in order. -/
def path_dirs (path : CStr) : List CStr :=
  (path.splitOn ':').filter (fun d => !d.isEmpty)

/-- Tests the composed paths of the directories in order and stops at the first
executable one: the path found and the `access` calls made. -/
def scan_dirs (access_x : CStr → Bool) (cmd : CStr) : List CStr → Option CStr × List Event
  | [] => (none, [])
  | d :: ds =>
    if access_x (compose_path d cmd) then
      (some (compose_path d cmd), [Event.access (compose_path d cmd)])
    else
      ((scan_dirs access_x cmd ds).1,
        Event.access (compose_path d cmd) :: (scan_dirs access_x cmd ds).2)

/-- An executability oracle: `ls` is installed in `/usr/bin` and in `/bin`. -/
def ls_twice (p : CStr) : Bool := p == "/usr/bin/ls".data || p == "/bin/ls".data

/-- An executability oracle: the only executable is `/bin/tool`. -/
def only_bin_tool (p : CStr) : Bool := p == "/bin/tool".data

/-- An executability oracle: `ls` is in `/bin`, and the root directory holds an
executable `ls` as well, which an empty entry would compose to. -/
def root_and_bin_ls (p : CStr) : Bool := p == "/ls".data || p == "/bin/ls".data

/-- A stand-in tokenizer for concrete runs: the words between blanks and
newlines. -/
def words (line : CStr) : List CStr :=
  (line.splitOnP fun c => c == ' ' || c == '\n').filter fun w => !w.isEmpty

/-- A concrete system for the instances below: `ls` is installed in `/bin`
only, `/tmp` is the only directory `chdir` accepts, `fork` returns the child's
pid 1 to the shell, and the search path is "/usr/bin:/bin". -/
def demo_sys : Sys where
  tokenize := words
  path_env := some "/usr/bin:/bin".data
  access_x := fun _ p => p == "/bin/ls".data
  chdir := fun _ p =>
    match p with
    | some d => if d == "/tmp".data then .ok d else .error 2
    | none => .error 14
  getcwd := fun s _ => .ok s.cwd
  malloc := fun _ _ => .ok fun _ => some "junk".data
  fork := fun _ => 1
  execv := fun _ _ _ => none
  strerror := fun _ => "No such file or directory".data
  sizeof_char_ptr := 8

/-- The system `demo_sys` as seen by the child: `fork` returns 0. -/
def demo_child : Sys := { demo_sys with fork := fun _ => 0 }

/-- An interactive shell in `/` that has printed its first prompt. -/
def demo_state : State :=
  { shell_is_interactive := true, cwd := "/".data, line_num := 0,
    trace := [Event.stdout "0: ".data] }

/-- How many times a stretch of the trace releases a token sequence. -/
def release_count (evs : List Event) : Nat :=
  evs.countP fun e =>
    match e with
    | .tokens_destroy _ => true
    | _ => false

/-! ## Properties of `lookup` -/

theorem strcmp_eq_zero_iff (a b : CStr) : strcmp a b = 0 ↔ a = b := by
  induction a generalizing b with
  | nil => cases b <;> simp [strcmp]
  | cons x s ih =>
    cases b with
    | nil => simp [strcmp]
    | cons y t =>
      by_cases hxy : x = y
      · simp [strcmp, hxy, ih]
      · by_cases hlt : x.toNat < y.toNat <;> simp [strcmp, hxy, hlt]

theorem lookup_some (c : CStr) :
    lookup (some c) =
      if "?".data = c then 0 else if "cd".data = c then 1 else if "pwd".data = c then 2
      else if "exit".data = c then 3 else -1 := by
  simp only [lookup, lookup_from, cmd_table, strcmp_eq_zero_iff]
  rfl

theorem lookup_none : lookup none = -1 := by
  simp [lookup, lookup_from, cmd_table]

/-- C1: over the fixed command table, `lookup` sends the four built-in names
"?", "cd", "pwd", "exit" to the indices 0, 1, 2, 3; whenever it returns an
index the index is below 4 and the table entry there carries exactly the name
looked up, so distinct names get distinct indices; and it returns -1 exactly
for the null pointer and for the strings that are none of the four names, among
them the empty string and "CD". -/
theorem lookup_table_contract :
    (lookup (some "?".data) = 0 ∧ lookup (some "cd".data) = 1 ∧
      lookup (some "pwd".data) = 2 ∧ lookup (some "exit".data) = 3) ∧
    (∀ c : CStr, lookup (some c) ≠ -1 →
      ∃ i : Nat, lookup (some c) = i ∧ i < cmd_table.length ∧ cmd_table.length = 4 ∧
        (cmd_table[i]?).map fun_desc_t.cmd = some c) ∧
    (∀ a b : CStr, lookup (some a) ≠ -1 → lookup (some a) = lookup (some b) → a = b) ∧
    (∀ c : Option CStr, lookup c = -1 ↔
      (c ≠ some "?".data ∧ c ≠ some "cd".data ∧ c ≠ some "pwd".data ∧ c ≠ some "exit".data)) ∧
    (lookup none = -1 ∧ lookup (some []) = -1 ∧ lookup (some "CD".data) = -1) := by
  have key : ∀ c : CStr, lookup (some c) ≠ -1 →
      ∃ i : Nat, lookup (some c) = i ∧ i < cmd_table.length ∧ cmd_table.length = 4 ∧
        (cmd_table[i]?).map fun_desc_t.cmd = some c := by
    intro c hc
    rw [lookup_some] at hc ⊢
    split_ifs at hc ⊢ with h1 h2 h3 h4
    · exact ⟨0, rfl, by decide, rfl, by rw [← h1]; rfl⟩
    · exact ⟨1, rfl, by decide, rfl, by rw [← h2]; rfl⟩
    · exact ⟨2, rfl, by decide, rfl, by rw [← h3]; rfl⟩
    · exact ⟨3, rfl, by decide, rfl, by rw [← h4]; rfl⟩
    · exact absurd rfl hc
  refine ⟨⟨by decide, by decide, by decide, by decide⟩, key, ?_, ?_,
    by decide, by decide, by decide⟩
  · intro a b ha hab
    obtain ⟨i, hi, -, -, hia⟩ := key a ha
    obtain ⟨j, hj, -, -, hjb⟩ := key b (hab ▸ ha)
    have hij : i = j := by
      have : (i : Int) = j := by rw [← hi, ← hj, hab]
      exact_mod_cast this
    subst hij
    rw [hia] at hjb
    exact Option.some.inj hjb
  · intro c
    cases c with
    | none => simp [lookup_none]
    | some c =>
      rw [lookup_some]
      constructor
      · intro h
        split_ifs at h with h1 h2 h3 h4
        refine ⟨?_, ?_, ?_, ?_⟩ <;> intro hc <;> simp_all
      · rintro ⟨h1, h2, h3, h4⟩
        have e1 : ¬ "?".data = c := fun h => h1 (by rw [h])
        have e2 : ¬ "cd".data = c := fun h => h2 (by rw [h])
        have e3 : ¬ "pwd".data = c := fun h => h3 (by rw [h])
        have e4 : ¬ "exit".data = c := fun h => h4 (by rw [h])
        simp [e1, e2, e3, e4]

/-! ## Properties of `get_exe_file` -/

theorem contains_colon (c : Char) : [':'].contains c = (c == ':') := by
  cases h : c == ':' <;> simp [List.contains, List.elem, h]

theorem splitOn_colon_cons (s : CStr) : List.splitOn ':' (':' :: s) = [] :: List.splitOn ':' s := by
  simp [List.splitOn, List.splitOnP_cons]

theorem splitOn_colon_eq (s : CStr) :
    List.splitOn ':' s =
      match s.dropWhile (fun c => !([':'].contains c)) with
      | [] => [s.takeWhile (fun c => !([':'].contains c))]
      | _ :: r => s.takeWhile (fun c => !([':'].contains c)) :: List.splitOn ':' r := by
  induction s with
  | nil => simp [List.splitOn]
  | cons x xs ih =>
    by_cases hx : x = ':'
    · subst hx
      simp [splitOn_colon_cons, contains_colon, List.dropWhile, List.takeWhile]
    · have hsplit : List.splitOn ':' (x :: xs) =
          List.modifyHead (List.cons x) (List.splitOn ':' xs) := by
        simp [List.splitOn, List.splitOnP_cons, hx]
      have hp : (!([':'].contains x)) = true := by simp [contains_colon, hx]
      rw [hsplit, ih, List.dropWhile_cons, List.takeWhile_cons, hp]
      simp only [if_true]
      cases xs.dropWhile (fun c => !([':'].contains c)) <;> rfl

theorem path_dirs_nil : path_dirs [] = [] := by
  simp [path_dirs, List.splitOn]

theorem path_dirs_colon_cons (s : CStr) : path_dirs (':' :: s) = path_dirs s := by
  simp [path_dirs, splitOn_colon_cons]

theorem path_dirs_dropWhile (s : CStr) :
    path_dirs (s.dropWhile (fun c => [':'].contains c)) = path_dirs s := by
  induction s with
  | nil => rfl
  | cons x xs ih =>
    by_cases hx : x = ':'
    · subst hx
      simp only [List.dropWhile, contains_colon, beq_self_eq_true, path_dirs_colon_cons]
      simpa only [contains_colon] using ih
    · simp [List.dropWhile, contains_colon, hx]

theorem strtok_r_colon (srch : Option CStr) (sv : CStr) :
    match strtok_r srch ":".data sv with
    | (none, _) => path_dirs (srch.getD sv) = []
    | (some tok, r) =>
      path_dirs (srch.getD sv) = tok :: path_dirs r ∧ r.length < (srch.getD sv).length := by
  unfold strtok_r
  simp only []
  rw [← path_dirs_dropWhile (srch.getD sv)]
  have hlen := (List.dropWhile_suffix (fun c => [':'].contains c)
    (l := srch.getD sv)).length_le
  generalize hd : List.dropWhile (fun c => [':'].contains c) (srch.getD sv) = d at hlen
  cases d with
  | nil => simp [path_dirs_nil]
  | cons c d' =>
    have hc : [':'].contains c = false := by
      have h := List.head_dropWhile_not (fun c => [':'].contains c) (srch.getD sv)
        (by rw [hd]; simp)
      simp only [hd, List.head_cons] at h
      exact h
    have htok : List.takeWhile (fun c => !([':'].contains c)) (c :: d') =
        c :: List.takeWhile (fun c => !([':'].contains c)) d' := by
      rw [List.takeWhile_cons, hc]; rfl
    have hlen2 := (List.dropWhile_suffix (fun c => !([':'].contains c))
      (l := c :: d')).length_le
    have hsplit := splitOn_colon_eq (c :: d')
    simp only [List.cons_ne_nil, if_false, reduceCtorEq]
    generalize List.dropWhile (fun c => !([':'].contains c)) (c :: d') = e at hsplit hlen2
    cases e with
    | nil =>
      simp only [] at hsplit ⊢
      refine ⟨?_, ?_⟩
      · unfold path_dirs; rw [hsplit, htok]; rfl
      · simp only [List.length_cons, List.length_nil] at hlen ⊢; omega
    | cons x r =>
      simp only [] at hsplit ⊢
      refine ⟨?_, ?_⟩
      · unfold path_dirs; rw [hsplit, htok]; rfl
      · simp only [List.length_cons] at hlen hlen2 ⊢; omega

theorem path_loop_eq_scan (access_x : CStr → Bool) (cmd : CStr) :
    ∀ (n : Nat) (srch : Option CStr) (sv : CStr), (srch.getD sv).length ≤ n →
      path_loop access_x cmd srch sv = scan_dirs access_x cmd (path_dirs (srch.getD sv)) := by
  intro n
  induction n with
  | zero =>
    intro srch sv hn
    have h0 : srch.getD sv = [] := List.length_eq_zero.mp (Nat.le_zero.mp hn)
    have hk := strtok_r_colon srch sv
    rw [path_loop]
    split
    · rename_i heq
      rw [heq] at hk
      simp only [] at hk
      rw [hk]; rfl
    · rename_i tok r heq
      rw [heq] at hk
      simp only [] at hk
      rw [h0] at hk
      simp at hk
  | succ n ih =>
    intro srch sv hn
    have hk := strtok_r_colon srch sv
    rw [path_loop]
    split
    · rename_i heq
      rw [heq] at hk
      simp only [] at hk
      rw [hk]; rfl
    · rename_i tok r heq
      rw [heq] at hk
      simp only [] at hk
      rw [hk.1]
      have hr : ((none : Option CStr).getD r).length ≤ n := by
        simp only [Option.getD_none]; omega
      simp only [scan_dirs, ih none r hr, Option.getD_none]

theorem scan_dirs_some_iff (access_x : CStr → Bool) (cmd : CStr) (ds : List CStr) (p : CStr) :
    (scan_dirs access_x cmd ds).1 = some p ↔
      ∃ before d after, ds = before ++ d :: after ∧ p = compose_path d cmd ∧
        access_x p = true ∧ ∀ b ∈ before, access_x (compose_path b cmd) = false := by
  induction ds with
  | nil => simp [scan_dirs]
  | cons e es ih =>
    by_cases he : access_x (compose_path e cmd) = true
    · simp only [scan_dirs, he, if_true]
      constructor
      · intro h
        have hp : compose_path e cmd = p := Option.some.inj h
        exact ⟨[], e, es, rfl, hp.symm, hp ▸ he, by simp⟩
      · rintro ⟨before, d, after, hsplit, hp, -, hb⟩
        cases before with
        | nil =>
          simp only [List.nil_append, List.cons.injEq] at hsplit
          rw [hp, hsplit.1]
        | cons b bs =>
          simp only [List.cons_append, List.cons.injEq] at hsplit
          have := hb b (by simp)
          rw [← hsplit.1, he] at this
          exact absurd this (by simp)
    · simp only [scan_dirs, he, if_false, Bool.false_eq_true]
      rw [ih]
      constructor
      · rintro ⟨before, d, after, hsplit, hp, hx, hb⟩
        refine ⟨e :: before, d, after, by rw [hsplit]; rfl, hp, hx, ?_⟩
        intro b hbm
        rcases List.mem_cons.mp hbm with rfl | hbm
        · simpa using he
        · exact hb b hbm
      · rintro ⟨before, d, after, hsplit, hp, hx, hb⟩
        cases before with
        | nil =>
          simp only [List.nil_append, List.cons.injEq] at hsplit
          rw [hp, ← hsplit.1] at hx
          exact absurd hx he
        | cons b bs =>
          simp only [List.cons_append, List.cons.injEq] at hsplit
          exact ⟨bs, d, after, hsplit.2, hp, hx, fun b' hb' => hb b' (List.mem_cons_of_mem _ hb')⟩

theorem scan_dirs_none_iff (access_x : CStr → Bool) (cmd : CStr) (ds : List CStr) :
    (scan_dirs access_x cmd ds).1 = none ↔ ∀ d ∈ ds, access_x (compose_path d cmd) = false := by
  induction ds with
  | nil => simp [scan_dirs]
  | cons e es ih =>
    by_cases he : access_x (compose_path e cmd) = true
    · simp [scan_dirs, he]
    · simp only [scan_dirs, he, if_false, Bool.false_eq_true, ih, List.mem_cons, forall_eq_or_imp]
      simp [he]

theorem get_exe_file_path (access_x : CStr → Bool) (cmd : CStr) (hcmd : '/' ∉ cmd)
    (path : CStr) :
    get_exe_file access_x (some path) (some cmd) =
      ((scan_dirs access_x cmd (path_dirs path)).1,
        Event.getenv "PATH".data :: (scan_dirs access_x cmd (path_dirs path)).2) := by
  have hs : strchr_found cmd '/' = false := by simpa [strchr_found] using hcmd
  simp only [get_exe_file, hs, Bool.false_eq_true, if_false]
  rw [path_loop_eq_scan access_x cmd path.length (some path) [] (by simp)]
  rfl

theorem get_exe_file_direct (access_x : CStr → Bool) (path_env : Option CStr) (cmd : CStr)
    (hcmd : '/' ∈ cmd) :
    get_exe_file access_x path_env (some cmd) =
      (if access_x cmd then some cmd else none, [Event.access cmd]) := by
  have hs : strchr_found cmd '/' = true := by simpa [strchr_found] using hcmd
  simp only [get_exe_file, hs, if_true]
  split_ifs <;> rfl

/-- C2: for a command name without '/', with executability fixed by the oracle
`access_x`, `get_exe_file` returns the composed path "d/name" of the earliest
directory `d` of the colon-split search path whose composed path is executable
(every directory before `d` fails the check), returns "not found" exactly when
no directory's composed path is executable, and also when the search path is
absent; for the path list "A:B" with the command executable under both, the
result is the path under "A". -/
theorem get_exe_file_search_priority (access_x : CStr → Bool) (cmd : CStr) (hcmd : '/' ∉ cmd) :
    (∀ path p : CStr, (get_exe_file access_x (some path) (some cmd)).1 = some p ↔
      ∃ before d after, path_dirs path = before ++ d :: after ∧ p = compose_path d cmd ∧
        access_x p = true ∧ ∀ b ∈ before, access_x (compose_path b cmd) = false) ∧
    (∀ path : CStr, (get_exe_file access_x (some path) (some cmd)).1 = none ↔
      ∀ d ∈ path_dirs path, access_x (compose_path d cmd) = false) ∧
    (get_exe_file access_x none (some cmd)).1 = none ∧
    (access_x ("A/".data ++ cmd) = true → access_x ("B/".data ++ cmd) = true →
      (get_exe_file access_x (some "A:B".data) (some cmd)).1 = some ("A/".data ++ cmd)) := by
  have hs : strchr_found cmd '/' = false := by simpa [strchr_found] using hcmd
  refine ⟨?_, ?_, ?_, ?_⟩
  · intro path p
    rw [get_exe_file_path access_x cmd hcmd path]
    exact scan_dirs_some_iff access_x cmd (path_dirs path) p
  · intro path
    rw [get_exe_file_path access_x cmd hcmd path]
    exact scan_dirs_none_iff access_x cmd (path_dirs path)
  · simp [get_exe_file, hs]
  · intro hA _
    rw [get_exe_file_path access_x cmd hcmd "A:B".data]
    refine (scan_dirs_some_iff access_x cmd _ _).mpr
      ⟨[], "A".data, ["B".data], ?_, rfl, hA, by simp⟩
    decide

/-- C2 at a concrete input: with `ls` executable in both `/usr/bin` and `/bin`
and the search path "/sbin:/usr/bin:/bin", the name "ls" resolves to
"/usr/bin/ls". -/
theorem get_exe_file_search_priority_witness :
    '/' ∉ "ls".data ∧
    (get_exe_file ls_twice (some "/sbin:/usr/bin:/bin".data) (some "ls".data)).1 =
      some "/usr/bin/ls".data :=
  ⟨by decide,
    ((get_exe_file_search_priority ls_twice "ls".data (by decide)).1
      "/sbin:/usr/bin:/bin".data "/usr/bin/ls".data).mpr
      ⟨["/sbin".data], "/usr/bin".data, ["/bin".data], by decide, by decide, by decide,
        by decide⟩⟩

/-- C3: a command name containing '/' is a direct path: `get_exe_file` returns
exactly that name when the oracle accepts it and "not found" otherwise, its
only call is the executability check of the name itself, and the outcome is the
same for every value of the search-path variable, absent, empty or not. -/
theorem get_exe_file_direct_path (access_x : CStr → Bool) (cmd : CStr) (hcmd : '/' ∈ cmd) :
    (∀ path_env : Option CStr,
      get_exe_file access_x path_env (some cmd) =
        (if access_x cmd then some cmd else none, [Event.access cmd])) ∧
    (∀ p q : Option CStr,
      get_exe_file access_x p (some cmd) = get_exe_file access_x q (some cmd)) := by
  exact ⟨fun path_env => get_exe_file_direct access_x path_env cmd hcmd,
    fun p q => by
      rw [get_exe_file_direct access_x p cmd hcmd, get_exe_file_direct access_x q cmd hcmd]⟩

/-- C3 at a concrete input: "./tool" is not executable, `/bin/tool` is, and the
search path lists `/bin`; the direct path is still reported "not found". -/
theorem get_exe_file_direct_path_witness :
    '/' ∈ "./tool".data ∧
    get_exe_file only_bin_tool (some "/bin".data) (some "./tool".data) =
      (none, [Event.access "./tool".data]) ∧
    (get_exe_file only_bin_tool (some "/bin".data) (some "tool".data)).1 =
      some "/bin/tool".data :=
  ⟨by decide,
    (get_exe_file_direct_path only_bin_tool "./tool".data (by decide)).1 (some "/bin".data),
    by
      rw [get_exe_file_path only_bin_tool "tool".data (by decide) "/bin".data]
      exact (scan_dirs_some_iff only_bin_tool "tool".data _ _).mpr
        ⟨[], "/bin".data, [], by decide, by decide, by decide, by decide⟩⟩

theorem scan_dirs_calls (access_x : CStr → Bool) (cmd : CStr) (ds : List CStr) :
    (scan_dirs access_x cmd ds).2 =
      ((ds.map fun d => compose_path d cmd).take
        (((ds.map fun d => compose_path d cmd).takeWhile fun p => !access_x p).length + 1)).map
        Event.access := by
  induction ds with
  | nil => rfl
  | cons e es ih =>
    by_cases he : access_x (compose_path e cmd) = true
    · simp [scan_dirs, he, List.takeWhile_cons]
    · simp only [Bool.not_eq_true] at he
      simp [scan_dirs, he, List.takeWhile_cons, ih]

theorem scan_dirs_result (access_x : CStr → Bool) (cmd : CStr) (ds : List CStr) :
    (scan_dirs access_x cmd ds).1 = (ds.map fun d => compose_path d cmd).find? access_x := by
  induction ds with
  | nil => rfl
  | cons e es ih =>
    by_cases he : access_x (compose_path e cmd) = true
    · simp [scan_dirs, he, List.find?_cons]
    · simp only [Bool.not_eq_true] at he
      simp [scan_dirs, he, List.find?_cons, ih]

theorem splitOn_colon_ne_nil (s : CStr) : List.splitOn ':' s ≠ [] :=
  List.splitOnP_ne_nil _ s

theorem splitOn_colon_cons_ne (x : Char) (hx : x ≠ ':') (s : CStr) :
    List.splitOn ':' (x :: s) = List.modifyHead (List.cons x) (List.splitOn ':' s) := by
  simp [List.splitOn, List.splitOnP_cons, hx]

theorem splitOn_colon_append (p q : CStr) :
    List.splitOn ':' (p ++ ':' :: q) = List.splitOn ':' p ++ List.splitOn ':' q := by
  induction p with
  | nil => simp [splitOn_colon_cons, List.splitOn]
  | cons x xs ih =>
    by_cases hx : x = ':'
    · subst hx
      rw [List.cons_append, splitOn_colon_cons, splitOn_colon_cons, ih, List.cons_append]
    · rw [List.cons_append, splitOn_colon_cons_ne x hx, splitOn_colon_cons_ne x hx, ih]
      have hne := splitOn_colon_ne_nil xs
      cases hsp : List.splitOn ':' xs with
      | nil => exact absurd hsp hne
      | cons a as => rfl

theorem path_dirs_append (p q : CStr) :
    path_dirs (p ++ ':' :: q) = path_dirs p ++ path_dirs q := by
  simp [path_dirs, splitOn_colon_append]

theorem path_dirs_single (d : CStr) (hne : d ≠ []) (hd : ':' ∉ d) : path_dirs d = [d] := by
  have h : List.splitOn ':' d = [d] := by
    unfold List.splitOn
    apply List.splitOnP_eq_single
    intro x hx hcolon
    have : x = ':' := by simpa using hcolon
    exact hd (this ▸ hx)
  cases d with
  | nil => exact absurd rfl hne
  | cons c cs => unfold path_dirs; rw [h]; rfl

theorem splitOn_colon_free (s : CStr) : ∀ l ∈ List.splitOn ':' s, ':' ∉ l := by
  induction s with
  | nil => simp [List.splitOn]
  | cons x xs ih =>
    by_cases hx : x = ':'
    · subst hx
      rw [splitOn_colon_cons]
      intro l hl
      rcases List.mem_cons.mp hl with rfl | hl
      · simp
      · exact ih l hl
    · rw [splitOn_colon_cons_ne x hx]
      cases hsp : List.splitOn ':' xs with
      | nil => simp
      | cons a as =>
        rw [hsp] at ih
        intro l hl
        simp only [List.modifyHead, List.mem_cons] at hl
        rcases hl with rfl | hl
        · intro hmem
          rcases List.mem_cons.mp hmem with h | h
          · exact hx h.symm
          · exact ih a (by simp) h
        · exact ih l (List.mem_cons_of_mem _ hl)

theorem path_dirs_mem (s d : CStr) (h : d ∈ path_dirs s) : d ≠ [] ∧ ':' ∉ d := by
  unfold path_dirs at h
  rw [List.mem_filter] at h
  refine ⟨?_, splitOn_colon_free s d h.1⟩
  intro hd
  rw [hd] at h
  simp at h

theorem path_dirs_intercalate (ds : List CStr) (h : ∀ d ∈ ds, d ≠ [] ∧ ':' ∉ d) :
    path_dirs ([':'].intercalate ds) = ds := by
  induction ds with
  | nil => simp [List.intercalate, path_dirs_nil]
  | cons d rest ih =>
    have hd := h d (by simp)
    have hrest : ∀ e ∈ rest, e ≠ [] ∧ ':' ∉ e := fun e he => h e (List.mem_cons_of_mem _ he)
    cases rest with
    | nil => simpa [List.intercalate, List.intersperse] using path_dirs_single d hd.1 hd.2
    | cons e es =>
      have hstep : [':'].intercalate (d :: e :: es) = d ++ ':' :: [':'].intercalate (e :: es) := by
        simp [List.intercalate, List.intersperse]
      rw [hstep, path_dirs_append, ih hrest, path_dirs_single d hd.1 hd.2]
      rfl

theorem path_dirs_clean (path : CStr) :
    path_dirs ([':'].intercalate (path_dirs path)) = path_dirs path :=
  path_dirs_intercalate _ (path_dirs_mem path)

theorem path_dirs_all_colons (path : CStr) (h : ∀ c ∈ path, c = ':') : path_dirs path = [] := by
  induction path with
  | nil => exact path_dirs_nil
  | cons x xs ih =>
    have hx : x = ':' := h x (by simp)
    subst hx
    rw [path_dirs_colon_cons]
    exact ih fun c hc => h c (List.mem_cons_of_mem _ hc)

/-- C10: for a command name without '/', the executability checks of
`get_exe_file` run over the composed paths of the non-empty maximal colon-free
segments of the search-path value, in order, up to and including the first
executable one (all of them when none is executable), and an empty segment is
never composed or checked; so a value resolves exactly like the same value with
its empty entries removed, in particular with a leading, a trailing or a
doubled ':' dropped, and an empty or all-colon value gives "not found" with no
executability check at all. -/
theorem get_exe_file_skips_empty_entries (access_x : CStr → Bool) (cmd : CStr)
    (hcmd : '/' ∉ cmd) :
    (∀ path : CStr,
      get_exe_file access_x (some path) (some cmd) =
        (((path_dirs path).map fun d => compose_path d cmd).find? access_x,
          Event.getenv "PATH".data ::
            ((((path_dirs path).map fun d => compose_path d cmd).take
              ((((path_dirs path).map fun d => compose_path d cmd).takeWhile
                fun p => !access_x p).length + 1)).map Event.access))) ∧
    (∀ path : CStr,
      get_exe_file access_x (some path) (some cmd) =
        get_exe_file access_x (some ([':'].intercalate (path_dirs path))) (some cmd)) ∧
    (∀ path : CStr,
      get_exe_file access_x (some (':' :: path)) (some cmd) =
        get_exe_file access_x (some path) (some cmd) ∧
      get_exe_file access_x (some (path ++ [':'])) (some cmd) =
        get_exe_file access_x (some path) (some cmd)) ∧
    (∀ p q : CStr,
      get_exe_file access_x (some (p ++ ':' :: ':' :: q)) (some cmd) =
        get_exe_file access_x (some (p ++ ':' :: q)) (some cmd)) ∧
    (∀ path : CStr, (∀ c ∈ path, c = ':') →
      get_exe_file access_x (some path) (some cmd) = (none, [Event.getenv "PATH".data])) := by
  have hdirs : ∀ p q : CStr, path_dirs p = path_dirs q →
      get_exe_file access_x (some p) (some cmd) = get_exe_file access_x (some q) (some cmd) := by
    intro p q hpq
    rw [get_exe_file_path access_x cmd hcmd p, get_exe_file_path access_x cmd hcmd q, hpq]
  refine ⟨?_, ?_, ?_, ?_, ?_⟩
  · intro path
    rw [get_exe_file_path access_x cmd hcmd path, scan_dirs_result, scan_dirs_calls]
  · intro path
    exact hdirs _ _ (path_dirs_clean path).symm
  · intro path
    refine ⟨hdirs _ _ (path_dirs_colon_cons path), hdirs _ _ ?_⟩
    rw [path_dirs_append, path_dirs_nil, List.append_nil]
  · intro p q
    apply hdirs
    rw [path_dirs_append, path_dirs_append, path_dirs_colon_cons]
  · intro path hall
    rw [get_exe_file_path access_x cmd hcmd path, path_dirs_all_colons path hall]
    rfl

/-- C10 at a concrete input: in "::/opt::/bin:" the empty entries are skipped,
so "/ls" is never checked although it is executable; the checks are
"/opt/ls" and "/bin/ls". -/
theorem get_exe_file_skips_empty_entries_witness :
    '/' ∉ "ls".data ∧
    get_exe_file root_and_bin_ls (some "::/opt::/bin:".data) (some "ls".data) =
      (some "/bin/ls".data,
        [Event.getenv "PATH".data, Event.access "/opt/ls".data, Event.access "/bin/ls".data]) :=
  ⟨by decide,
    ((get_exe_file_skips_empty_entries root_and_bin_ls "ls".data (by decide)).1
      "::/opt::/bin:".data).trans (by decide)⟩

/-! ## Properties of the built-ins and of the loop -/

theorem fill_args_length (tokens : List CStr) (k : Nat) :
    ∀ (i : Nat) (args : List (Option CStr)), (fill_args tokens k i args).length = args.length := by
  induction k with
  | zero => intro i args; rfl
  | succ k ih => intro i args; simp [fill_args, ih]

theorem fill_args_getElem? (tokens : List CStr) (k : Nat) :
    ∀ (i : Nat) (args : List (Option CStr)) (j : Nat),
      (fill_args tokens k i args)[j]? =
        if i ≤ j ∧ j < i + k ∧ j < args.length then some (tokens_get_token tokens j)
        else args[j]? := by
  induction k with
  | zero =>
    intro i args j
    have : ¬ (i ≤ j ∧ j < i + 0 ∧ j < args.length) := by omega
    rw [fill_args, if_neg this]
  | succ k ih =>
    intro i args j
    rw [fill_args, ih, List.length_set, List.getElem?_set]
    by_cases hij : i = j
    · subst hij
      by_cases hlen : i < args.length
      · have h1 : ¬ (i + 1 ≤ i ∧ i < i + 1 + k ∧ i < args.length) := by omega
        have h2 : i ≤ i ∧ i < i + (k + 1) ∧ i < args.length := ⟨le_refl i, by omega, hlen⟩
        simp [h1, h2, hlen]
      · have h1 : ¬ (i + 1 ≤ i ∧ i < i + 1 + k ∧ i < args.length) := by omega
        have h2 : ¬ (i ≤ i ∧ i < i + (k + 1) ∧ i < args.length) := by omega
        rw [if_neg h1, if_neg h2, if_pos rfl, if_neg hlen]
        exact (List.getElem?_eq_none (l := args) (Nat.le_of_not_lt hlen)).symm
    · have hiff : (i + 1 ≤ j ∧ j < i + 1 + k ∧ j < args.length) ↔
          (i ≤ j ∧ j < i + (k + 1) ∧ j < args.length) := by omega
      simp only [hij, if_false, hiff]

theorem build_args_eq (tokens : List CStr) (junk : Nat → Option CStr) :
    build_args tokens junk = tokens.map some ++ [none] := by
  apply List.ext_getElem?
  intro j
  simp only [build_args, tokens_get_length, List.getElem?_set, fill_args_length,
    fill_args_getElem?, List.length_map, List.length_range, tokens_get_token]
  by_cases hj : tokens.length = j
  · subst hj
    simp
  · by_cases hlt : j < tokens.length
    · have hc : 0 ≤ j ∧ j < 0 + tokens.length ∧ j < tokens.length + 1 := by omega
      rw [List.getElem?_append_left (by simpa using hlt)]
      simp [hj, hc, hlt]
    · have hc : ¬ (0 ≤ j ∧ j < 0 + tokens.length ∧ j < tokens.length + 1) := by omega
      have hge : tokens.length + 1 ≤ j := by omega
      simp only [hj, hc, if_false]
      rw [List.getElem?_eq_none (by simpa using hge), List.getElem?_eq_none (by simpa using hge)]

theorem emit_emit (s : State) (a b : List Event) : (s.emit a).emit b = s.emit (a ++ b) := by
  simp [State.emit, List.append_assoc]

theorem emit_trace (s : State) (a : List Event) : (s.emit a).trace = s.trace ++ a := rfl

theorem get_exe_file_events (access_x : CStr → Bool) (path_env cmd : Option CStr) :
    ∀ e ∈ (get_exe_file access_x path_env cmd).2,
      e = Event.getenv "PATH".data ∨ ∃ p, e = Event.access p := by
  cases cmd with
  | none => simp [get_exe_file]
  | some c =>
    by_cases hc : '/' ∈ c
    · intro e he
      rw [get_exe_file_direct access_x path_env c hc] at he
      exact Or.inr ⟨c, by simpa using he⟩
    · cases path_env with
      | none =>
        have hs : strchr_found c '/' = false := by simpa [strchr_found] using hc
        simp [get_exe_file, hs]
      | some path =>
        rw [get_exe_file_path access_x c hc path, scan_dirs_calls]
        intro e he
        rcases List.mem_cons.mp he with rfl | he
        · exact Or.inl rfl
        · obtain ⟨p, -, rfl⟩ := List.mem_map.mp he
          exact Or.inr ⟨p, rfl⟩

theorem main_loop_step (sys : Sys) (s s1 : State) (stream rest : List Char) (line : CStr)
    (hread : fgets 4096 stream = some (line, rest))
    (hbody : loop_body sys s line = .next s1) :
    main_loop sys s stream = main_loop sys s1 rest := by
  rw [main_loop]
  split
  · rename_i heq
    rw [hread] at heq
    exact absurd heq (by simp)
  · rename_i line' rest' heq
    rw [hread] at heq
    obtain ⟨rfl, rfl⟩ := Prod.mk.inj (Option.some.inj heq)
    rw [hbody]

theorem dispatch_unknown (sys : Sys) (s : State) (tokens : List CStr) (c : CStr)
    (htok : tokens_get_token tokens 0 = some c)
    (hlook : lookup (some c) = -1)
    (hexe : (get_exe_file (sys.access_x s) sys.path_env (some c)).1 = none) :
    dispatch sys s tokens =
      .next (s.emit ((get_exe_file (sys.access_x s) sys.path_env (some c)).2 ++
        [Event.stdout ("Unknown command '".data ++ c ++ "'.\n".data)])) := by
  have hneg : ¬ ((-1 : Int) ≥ 0) := by decide
  simp only [dispatch, htok, hlook, hneg, if_false, hexe, emit_emit]

theorem dispatch_blank (sys : Sys) (s : State) : dispatch sys s [] = .next s := by
  have hneg : ¬ ((-1 : Int) ≥ 0) := by decide
  have hl : lookup (tokens_get_token [] 0) = -1 := lookup_none
  simp only [dispatch, hl, hneg, if_false]
  simp [tokens_get_token, get_exe_file, State.emit]

/-- C4: `cmd_cd` on the explicit working-directory state. For every token
sequence whose length is not 2 it writes the usage message to standard error,
returns the non-success status 1 and leaves the working directory unchanged
without calling `chdir`; for a sequence of length 2 whose argument `chdir`
accepts, it calls `chdir` on that argument once, the working directory becomes
the directory `chdir` entered and the status is 0; when `chdir` fails, the
status is 1, the error is written to standard error and the working directory
is unchanged. -/
theorem cmd_cd_contract (sys : Sys) (s : State) (tokens : List CStr) :
    (tokens.length ≠ 2 →
      cmd_cd sys s tokens =
        .returned 1 { s with trace := s.trace ++ [Event.stderr "usage: cd <dir>\n".data] }) ∧
    (∀ cwd : CStr, tokens.length = 2 → sys.chdir s (tokens_get_token tokens 1) = .ok cwd →
      cmd_cd sys s tokens =
        .returned 0
          { s with cwd := cwd, trace := s.trace ++ [Event.chdir (tokens_get_token tokens 1)] }) ∧
    (∀ errno : Nat, tokens.length = 2 → sys.chdir s (tokens_get_token tokens 1) = .error errno →
      cmd_cd sys s tokens =
        .returned 1
          { s with trace := s.trace ++
                     [Event.chdir (tokens_get_token tokens 1),
                       Event.stderr (error_text sys errno)] }) ∧
    (tokens.length = 2 → ∃ dir, tokens_get_token tokens 1 = some dir) := by
  refine ⟨?_, ?_, ?_, ?_⟩
  · intro hlen
    have h2 : 2 ≠ tokens_get_length tokens := fun h => hlen h.symm
    simp only [cmd_cd, if_pos h2]
    rfl
  · intro cwd hlen hok
    have h2 : ¬ (2 ≠ tokens_get_length tokens) := fun h => h hlen.symm
    simp only [cmd_cd, if_neg h2, hok]
    rfl
  · intro errno hlen herr
    have h2 : ¬ (2 ≠ tokens_get_length tokens) := fun h => h hlen.symm
    simp only [cmd_cd, if_neg h2, herr]
    rfl
  · intro hlen
    match tokens, hlen with
    | [_, dir], _ => exact ⟨dir, rfl⟩

/-- C4 at concrete inputs: in `/`, "cd" alone and "cd a b" report the usage
error and stay in `/`, "cd /tmp" moves to `/tmp` with status 0, "cd /nowhere"
fails with status 1 and stays in `/`. -/
theorem cmd_cd_contract_witness :
    cmd_cd demo_sys demo_state ["cd".data] =
      .returned 1
        { shell_is_interactive := true, cwd := "/".data, line_num := 0,
          trace := [Event.stdout "0: ".data, Event.stderr "usage: cd <dir>\n".data] } ∧
    cmd_cd demo_sys demo_state ["cd".data, "a".data, "b".data] =
      .returned 1
        { shell_is_interactive := true, cwd := "/".data, line_num := 0,
          trace := [Event.stdout "0: ".data, Event.stderr "usage: cd <dir>\n".data] } ∧
    cmd_cd demo_sys demo_state ["cd".data, "/tmp".data] =
      .returned 0
        { shell_is_interactive := true, cwd := "/tmp".data, line_num := 0,
          trace := [Event.stdout "0: ".data, Event.chdir (some "/tmp".data)] } ∧
    cmd_cd demo_sys demo_state ["cd".data, "/nowhere".data] =
      .returned 1
        { shell_is_interactive := true, cwd := "/".data, line_num := 0,
          trace := [Event.stdout "0: ".data, Event.chdir (some "/nowhere".data),
            Event.stderr "error: No such file or directory\n".data] } :=
  ⟨(cmd_cd_contract demo_sys demo_state ["cd".data]).1 (by decide),
    (cmd_cd_contract demo_sys demo_state ["cd".data, "a".data, "b".data]).1 (by decide),
    (cmd_cd_contract demo_sys demo_state ["cd".data, "/tmp".data]).2.1 "/tmp".data rfl rfl,
    (cmd_cd_contract demo_sys demo_state ["cd".data, "/nowhere".data]).2.2.1 2 rfl rfl⟩

/-- C5: when the first token `c` of a line is non-null, is not a built-in name
and is not resolved by `get_exe_file`, the dispatch makes only the resolver's
`getenv` and `access` calls and then prints exactly the notice
"Unknown command 'c'." on standard output: no `fork`, no `execv`, no other
output; the iteration then ends with the prompt (interactive shells only) and
the release of the tokens, and the loop goes on with the next line. -/
theorem unknown_command_notice (sys : Sys) (s : State) (line c : CStr)
    (htok : tokens_get_token (sys.tokenize line) 0 = some c)
    (hlook : lookup (some c) = -1)
    (hexe : (get_exe_file (sys.access_x s) sys.path_env (some c)).1 = none) :
    dispatch sys s (sys.tokenize line) =
      .next (s.emit ((get_exe_file (sys.access_x s) sys.path_env (some c)).2 ++
        [Event.stdout ("Unknown command '".data ++ c ++ "'.\n".data)])) ∧
    (∀ e ∈ (get_exe_file (sys.access_x s) sys.path_env (some c)).2,
      e = Event.getenv "PATH".data ∨ ∃ p, e = Event.access p) ∧
    loop_body sys s line =
      .next ((prompt (s.emit ((get_exe_file (sys.access_x s) sys.path_env (some c)).2 ++
        [Event.stdout ("Unknown command '".data ++ c ++ "'.\n".data)]))).emit
          [Event.tokens_destroy (sys.tokenize line)]) ∧
    (∀ stream rest : List Char, fgets 4096 stream = some (line, rest) →
      main_loop sys s stream =
        main_loop sys
          ((prompt (s.emit ((get_exe_file (sys.access_x s) sys.path_env (some c)).2 ++
            [Event.stdout ("Unknown command '".data ++ c ++ "'.\n".data)]))).emit
              [Event.tokens_destroy (sys.tokenize line)]) rest) := by
  have hd := dispatch_unknown sys s (sys.tokenize line) c htok hlook hexe
  have hb : loop_body sys s line =
      .next ((prompt (s.emit ((get_exe_file (sys.access_x s) sys.path_env (some c)).2 ++
        [Event.stdout ("Unknown command '".data ++ c ++ "'.\n".data)]))).emit
          [Event.tokens_destroy (sys.tokenize line)]) := by
    simp only [loop_body, hd]
  exact ⟨hd, get_exe_file_events _ _ _, hb,
    fun stream rest hread => main_loop_step sys s _ stream rest line hread hb⟩

theorem demo_unresolved :
    get_exe_file (demo_sys.access_x demo_state) demo_sys.path_env (some "doesnotexist123".data) =
      (none, [Event.getenv "PATH".data, Event.access "/usr/bin/doesnotexist123".data,
        Event.access "/bin/doesnotexist123".data]) := by
  have h := get_exe_file_path (demo_sys.access_x demo_state) "doesnotexist123".data (by decide)
    "/usr/bin:/bin".data
  exact h.trans (by decide)

/-- C5 at a concrete input: the line "doesnotexist123" in the interactive demo
shell prints the notice naming it and then the prompt "1: ". -/
theorem unknown_command_notice_witness :
    loop_body demo_sys demo_state "doesnotexist123\n".data =
      .next { shell_is_interactive := true, cwd := "/".data, line_num := 1,
              trace := [Event.stdout "0: ".data, Event.getenv "PATH".data,
                Event.access "/usr/bin/doesnotexist123".data,
                Event.access "/bin/doesnotexist123".data,
                Event.stdout "Unknown command 'doesnotexist123'.\n".data,
                Event.stdout "1: ".data,
                Event.tokens_destroy ["doesnotexist123".data]] } :=
  (unknown_command_notice demo_sys demo_state "doesnotexist123\n".data "doesnotexist123".data
    (by decide) (by decide) (by rw [demo_unresolved])).2.2.1.trans
    (by rw [demo_unresolved]; decide)

theorem int_incr_eq (n : Int) (hlo : -2147483648 ≤ n) (hhi : n < 2147483647) :
    int_incr n = n + 1 := by
  unfold int_incr
  omega

/-- C6: a line that tokenizes to zero tokens is dispatched without any call or
output at all (no built-in, no `getenv`, no `access`, no `fork`, nothing
printed): the state after dispatch is the state before. The iteration then
only releases the empty token sequence when the shell is not interactive; when
it is interactive and `line_num` is an `int` below `INT_MAX`, it first
increments `line_num` by one and prints the prompt with the incremented
number. In both cases the loop goes on with the next line. -/
theorem blank_line_silent (sys : Sys) (s : State) (line : CStr)
    (hblank : sys.tokenize line = []) :
    dispatch sys s (sys.tokenize line) = .next s ∧
    (s.shell_is_interactive = false →
      loop_body sys s line = .next { s with trace := s.trace ++ [Event.tokens_destroy []] }) ∧
    (s.shell_is_interactive = true → -2147483648 ≤ s.line_num → s.line_num < 2147483647 →
      loop_body sys s line =
        .next { s with line_num := s.line_num + 1,
                       trace := s.trace ++ [Event.stdout (fmt_d (s.line_num + 1) ++ ": ".data),
                         Event.tokens_destroy []] }) ∧
    (∀ stream rest : List Char, fgets 4096 stream = some (line, rest) →
      main_loop sys s stream = main_loop sys ((prompt s).emit [Event.tokens_destroy []]) rest) := by
  have hd : dispatch sys s (sys.tokenize line) = .next s := by
    rw [hblank]; exact dispatch_blank sys s
  have hb : loop_body sys s line = .next ((prompt s).emit [Event.tokens_destroy []]) := by
    rw [loop_body]
    simp only [hd]
    rw [hblank]
  refine ⟨hd, ?_, ?_, fun stream rest hread => main_loop_step sys s _ stream rest line hread hb⟩
  · intro hni
    rw [hb]
    simp [prompt, hni, State.emit]
  · intro hi hlo hhi
    rw [hb]
    simp [prompt, hi, State.emit, int_incr_eq s.line_num hlo hhi]

/-- C6 at a concrete input: an empty line in the interactive demo shell, whose
`line_num` is 0, only prints the next prompt "1: " and releases the empty token
sequence. -/
theorem blank_line_silent_witness :
    loop_body demo_sys demo_state "\n".data =
      .next { shell_is_interactive := true, cwd := "/".data, line_num := 1,
              trace := [Event.stdout "0: ".data, Event.stdout "1: ".data,
                Event.tokens_destroy []] } :=
  ((blank_line_silent demo_sys demo_state "\n".data (by decide)).2.2.1 rfl (by decide)
    (by decide)).trans (by decide)

/-- C7 (as the code behaves): `cmd_help` returns the status 1 for every token
sequence, never 0; 1 is the status `cmd_cd` and `cmd_pwd` return on a usage
error, and 0 is the status they return when they succeed. -/
theorem cmd_help_returns_one (sys : Sys) (s : State) (tokens : List CStr) :
    (∃ s1, cmd_help s tokens = .returned 1 s1) ∧
    (∀ s1, cmd_help s tokens ≠ .returned 0 s1) ∧
    (∃ s1, cmd_cd sys s [] = .returned 1 s1) ∧
    (∃ s1, cmd_pwd sys s [] = .returned 1 s1) ∧
    (∀ c dir cwd, sys.chdir s (some dir) = .ok cwd →
      ∃ s1, cmd_cd sys s [c, dir] = .returned 0 s1) ∧
    (∀ c wd, sys.getcwd s PATH_MAX = .ok wd → ∃ s1, cmd_pwd sys s [c] = .returned 0 s1) := by
  refine ⟨⟨_, rfl⟩, ?_, ⟨_, rfl⟩, ⟨_, rfl⟩, ?_, ?_⟩
  · intro s1 h
    simp [cmd_help] at h
  · intro c dir cwd hok
    have h2 : ¬ (2 ≠ tokens_get_length [c, dir]) := by simp [tokens_get_length]
    have ht : tokens_get_token [c, dir] 1 = some dir := rfl
    exact ⟨{ s with cwd := cwd }.emit [Event.chdir (some dir)],
      by simp only [cmd_cd, if_neg h2, ht, hok]⟩
  · intro c wd hok
    have h1 : ¬ (1 ≠ tokens_get_length [c]) := by simp [tokens_get_length]
    exact ⟨s.emit [Event.getcwd, Event.stdout (wd ++ "\n".data)],
      by simp only [cmd_pwd, if_neg h1, hok]⟩

theorem release_count_append (a b : List Event) :
    release_count (a ++ b) = release_count a + release_count b := by
  simp [release_count, List.countP_append]

theorem release_count_probes (access_x : CStr → Bool) (path_env cmd : Option CStr) :
    release_count (get_exe_file access_x path_env cmd).2 = 0 := by
  unfold release_count
  rw [List.countP_eq_zero]
  intro e he
  rcases get_exe_file_events access_x path_env cmd e he with rfl | ⟨p, rfl⟩ <;> simp

theorem emit_shape (s s0 s1 : State) (evs : List Event) (h : s0.emit evs = s1)
    (h0 : s0.trace = s.trace) (hc : release_count evs = 0) :
    ∃ evs, s1.trace = s.trace ++ evs ∧ release_count evs = 0 :=
  ⟨evs, by rw [← h, emit_trace, h0], hc⟩

theorem call_fun_trace (sys : Sys) (f : cmd_fun_t) (s s1 : State) (tokens : List CStr)
    (status : Int) (h : call_fun sys f s tokens = .returned status s1) :
    ∃ evs, s1.trace = s.trace ++ evs ∧ release_count evs = 0 := by
  cases f with
  | cmd_help =>
    simp only [call_fun, cmd_help, Call.returned.injEq] at h
    exact emit_shape s s s1 _ h.2 rfl (by decide)
  | cmd_cd =>
    simp only [call_fun, cmd_cd] at h
    split_ifs at h
    · simp only [Call.returned.injEq] at h
      exact emit_shape s _ s1 _ h.2 rfl rfl
    · split at h
      · simp only [Call.returned.injEq] at h
        exact emit_shape s _ s1 _ h.2 rfl rfl
      · simp only [Call.returned.injEq] at h
        exact emit_shape s _ s1 _ h.2 rfl rfl
  | cmd_pwd =>
    simp only [call_fun, cmd_pwd] at h
    split_ifs at h
    · simp only [Call.returned.injEq] at h
      exact emit_shape s _ s1 _ h.2 rfl rfl
    · split at h
      · simp only [Call.returned.injEq] at h
        exact emit_shape s _ s1 _ h.2 rfl rfl
      · simp only [Call.returned.injEq] at h
        exact emit_shape s _ s1 _ h.2 rfl rfl
  | cmd_exit =>
    simp [call_fun, cmd_exit] at h

theorem dispatch_trace (sys : Sys) (s s1 : State) (tokens : List CStr)
    (h : dispatch sys s tokens = .next s1) :
    ∃ evs, s1.trace = s.trace ++ evs ∧ release_count evs = 0 := by
  unfold dispatch at h
  simp only [] at h
  by_cases hfun : lookup (tokens_get_token tokens 0) ≥ 0
  · rw [if_pos hfun] at h
    split at h
    · exact absurd h (by simp)
    · rename_i e he
      split at h
      · rename_i status s2 hcall
        obtain ⟨evs, h1, h2⟩ := call_fun_trace sys e.func s s2 tokens status hcall
        simp only [Outcome.next.injEq] at h
        exact ⟨evs, h ▸ h1, h2⟩
      · exact absurd h (by simp)
  · rw [if_neg hfun] at h
    have hp := release_count_probes (sys.access_x s) sys.path_env (tokens_get_token tokens 0)
    split at h
    · split at h
      · exact absurd h (by simp)
      · by_cases hpid : sys.fork
            (s.emit (get_exe_file (sys.access_x s) sys.path_env (tokens_get_token tokens 0)).2) = 0
        · rw [if_pos hpid] at h
          split at h <;> exact absurd h (by simp)
        · rw [if_neg hpid] at h
          simp only [Outcome.next.injEq, emit_emit] at h
          exact emit_shape s s s1 _ h rfl
            (by rw [release_count_append, release_count_append, hp]; rfl)
    · split at h
      · simp only [Outcome.next.injEq, emit_emit] at h
        exact emit_shape s s s1 _ h rfl (by rw [release_count_append, hp]; rfl)
      · simp only [Outcome.next.injEq] at h
        exact emit_shape s s s1 _ h rfl hp

theorem prompt_trace (s : State) :
    ∃ evs, (prompt s).trace = s.trace ++ evs ∧ release_count evs = 0 := by
  unfold prompt
  split_ifs
  · exact ⟨_, rfl, rfl⟩
  · exact ⟨[], by simp, rfl⟩

theorem dispatch_found (sys : Sys) (s : State) (tokens : List CStr) (exe : CStr)
    (junk : Nat → Option CStr)
    (hlook : lookup (tokens_get_token tokens 0) = -1)
    (hexe : (get_exe_file (sys.access_x s) sys.path_env (tokens_get_token tokens 0)).1 = some exe)
    (hmalloc : sys.malloc
      (s.emit (get_exe_file (sys.access_x s) sys.path_env (tokens_get_token tokens 0)).2)
      ((tokens.length + 1) * sys.sizeof_char_ptr) = .ok junk) :
    dispatch sys s tokens =
      if sys.fork
          (s.emit (get_exe_file (sys.access_x s) sys.path_env (tokens_get_token tokens 0)).2) = 0
      then
        match sys.execv
            (s.emit ((get_exe_file (sys.access_x s) sys.path_env (tokens_get_token tokens 0)).2 ++
              [Event.fork]))
            exe (build_args tokens junk) with
        | none =>
          .replaced exe (build_args tokens junk)
            (s.emit ((get_exe_file (sys.access_x s) sys.path_env (tokens_get_token tokens 0)).2 ++
              [Event.fork, Event.execv exe (build_args tokens junk)]))
        | some errno =>
          .exited 1
            (s.emit ((get_exe_file (sys.access_x s) sys.path_env (tokens_get_token tokens 0)).2 ++
              [Event.fork, Event.execv exe (build_args tokens junk),
                Event.stderr (error_text sys errno)]))
      else
        .next
          (s.emit ((get_exe_file (sys.access_x s) sys.path_env (tokens_get_token tokens 0)).2 ++
            [Event.fork, Event.wait])) := by
  have hneg : ¬ ((-1 : Int) ≥ 0) := by decide
  simp only [dispatch, hlook, hneg, if_false, hexe, tokens_get_length, hmalloc, emit_emit,
    List.append_assoc, List.singleton_append]

/-- C8: every iteration of the loop that returns to the loop releases the token
sequence exactly once, as its last call: whatever the dispatch did (a built-in
that returned 0, a built-in that returned 1, an external program launched and
waited for, an unknown command, a blank line), the calls the iteration adds to
the trace are calls that release nothing followed by one `tokens_destroy` of
this line's tokens. -/
theorem tokens_released_once (sys : Sys) (s s1 : State) (line : CStr)
    (h : loop_body sys s line = .next s1) :
    ∃ evs, s1.trace = s.trace ++ evs ++ [Event.tokens_destroy (sys.tokenize line)] ∧
      release_count evs = 0 ∧
      release_count (evs ++ [Event.tokens_destroy (sys.tokenize line)]) = 1 := by
  unfold loop_body at h
  simp only [] at h
  split at h
  · rename_i s0 hd
    obtain ⟨e1, ht1, hc1⟩ := dispatch_trace sys s s0 (sys.tokenize line) hd
    obtain ⟨e2, ht2, hc2⟩ := prompt_trace s0
    simp only [Outcome.next.injEq] at h
    have hc : release_count (e1 ++ e2) = 0 := by rw [release_count_append, hc1, hc2]
    refine ⟨e1 ++ e2, ?_, hc, ?_⟩
    · rw [← h, emit_trace, ht2, ht1]
      simp only [List.append_assoc]
    · rw [release_count_append, hc]; rfl
  · rename_i hne
    exact absurd h (hne s1)

theorem demo_cd_tmp_run :
    loop_body demo_sys demo_state "cd /tmp\n".data =
      .next { shell_is_interactive := true, cwd := "/tmp".data, line_num := 1,
              trace := [Event.stdout "0: ".data, Event.chdir (some "/tmp".data),
                Event.stdout "1: ".data, Event.tokens_destroy ["cd".data, "/tmp".data]] } := by
  decide

theorem demo_cd_nowhere_run :
    loop_body demo_sys demo_state "cd /nowhere\n".data =
      .next { shell_is_interactive := true, cwd := "/".data, line_num := 1,
              trace := [Event.stdout "0: ".data, Event.chdir (some "/nowhere".data),
                Event.stderr "error: No such file or directory\n".data,
                Event.stdout "1: ".data,
                Event.tokens_destroy ["cd".data, "/nowhere".data]] } := by
  decide

theorem demo_ls_resolved :
    get_exe_file (demo_sys.access_x demo_state) demo_sys.path_env (some "ls".data) =
      (some "/bin/ls".data, [Event.getenv "PATH".data, Event.access "/usr/bin/ls".data,
        Event.access "/bin/ls".data]) :=
  (get_exe_file_path (demo_sys.access_x demo_state) "ls".data (by decide)
    "/usr/bin:/bin".data).trans (by decide)

theorem demo_ls_run :
    loop_body demo_sys demo_state "ls -l\n".data =
      .next { shell_is_interactive := true, cwd := "/".data, line_num := 1,
              trace := [Event.stdout "0: ".data, Event.getenv "PATH".data,
                Event.access "/usr/bin/ls".data, Event.access "/bin/ls".data,
                Event.fork, Event.wait, Event.stdout "1: ".data,
                Event.tokens_destroy ["ls".data, "-l".data]] } := by
  have htok : demo_sys.tokenize "ls -l\n".data = ["ls".data, "-l".data] := by decide
  have hd := dispatch_found demo_sys demo_state ["ls".data, "-l".data] "/bin/ls".data
    (fun _ => some "junk".data) (by decide) (by rw [show tokens_get_token ["ls".data, "-l".data] 0
      = some "ls".data from rfl, demo_ls_resolved]) rfl
  rw [loop_body]
  simp only [htok, hd]
  rw [show tokens_get_token ["ls".data, "-l".data] 0 = some "ls".data from rfl, demo_ls_resolved]
  decide

theorem demo_unknown_run :
    loop_body demo_sys demo_state "doesnotexist123\n".data =
      .next { shell_is_interactive := true, cwd := "/".data, line_num := 1,
              trace := [Event.stdout "0: ".data, Event.getenv "PATH".data,
                Event.access "/usr/bin/doesnotexist123".data,
                Event.access "/bin/doesnotexist123".data,
                Event.stdout "Unknown command 'doesnotexist123'.\n".data,
                Event.stdout "1: ".data,
                Event.tokens_destroy ["doesnotexist123".data]] } := by
  have htok : demo_sys.tokenize "doesnotexist123\n".data = ["doesnotexist123".data] := by decide
  have hd := dispatch_unknown demo_sys demo_state ["doesnotexist123".data] "doesnotexist123".data
    rfl (by decide) (by rw [demo_unresolved])
  rw [loop_body]
  simp only [htok, hd]
  rw [demo_unresolved]
  decide

/-- C8 at concrete inputs, one for each branch of the dispatch that returns to
the loop: "cd /tmp" (built-in, status 0), "cd /nowhere" (built-in, status 1),
"ls -l" (external program found and launched), "doesnotexist123" (external
program not found). -/
theorem tokens_released_once_witness :
    (∃ s1, loop_body demo_sys demo_state "cd /tmp\n".data = .next s1 ∧
      ∃ evs, s1.trace = demo_state.trace ++ evs ++
          [Event.tokens_destroy (demo_sys.tokenize "cd /tmp\n".data)] ∧
        release_count evs = 0 ∧
        release_count (evs ++ [Event.tokens_destroy (demo_sys.tokenize "cd /tmp\n".data)]) = 1) ∧
    (∃ s1, loop_body demo_sys demo_state "cd /nowhere\n".data = .next s1 ∧
      ∃ evs, s1.trace = demo_state.trace ++ evs ++
          [Event.tokens_destroy (demo_sys.tokenize "cd /nowhere\n".data)] ∧
        release_count evs = 0 ∧
        release_count (evs ++
          [Event.tokens_destroy (demo_sys.tokenize "cd /nowhere\n".data)]) = 1) ∧
    (∃ s1, loop_body demo_sys demo_state "ls -l\n".data = .next s1 ∧
      ∃ evs, s1.trace = demo_state.trace ++ evs ++
          [Event.tokens_destroy (demo_sys.tokenize "ls -l\n".data)] ∧
        release_count evs = 0 ∧
        release_count (evs ++ [Event.tokens_destroy (demo_sys.tokenize "ls -l\n".data)]) = 1) ∧
    (∃ s1, loop_body demo_sys demo_state "doesnotexist123\n".data = .next s1 ∧
      ∃ evs, s1.trace = demo_state.trace ++ evs ++
          [Event.tokens_destroy (demo_sys.tokenize "doesnotexist123\n".data)] ∧
        release_count evs = 0 ∧
        release_count (evs ++
          [Event.tokens_destroy (demo_sys.tokenize "doesnotexist123\n".data)]) = 1) :=
  ⟨⟨_, demo_cd_tmp_run,
      tokens_released_once demo_sys demo_state _ "cd /tmp\n".data demo_cd_tmp_run⟩,
    ⟨_, demo_cd_nowhere_run,
      tokens_released_once demo_sys demo_state _ "cd /nowhere\n".data demo_cd_nowhere_run⟩,
    ⟨_, demo_ls_run, tokens_released_once demo_sys demo_state _ "ls -l\n".data demo_ls_run⟩,
    ⟨_, demo_unknown_run,
      tokens_released_once demo_sys demo_state _ "doesnotexist123\n".data demo_unknown_run⟩⟩

/-- C9: when the first token of a token sequence of length `n` is no built-in
and resolves to an executable `exe`, the array `args` built for `execv` has
exactly `n + 1` slots, slot `i` holds token `i` for every `i < n` (so slot 0 is
the command as typed, not the resolved path) and slot `n` is the null
terminator, whatever the fresh block held; and in the child this array is the
one handed to `execv` together with `exe`. -/
theorem execv_argument_vector (sys : Sys) (s : State) (tokens : List CStr) (exe : CStr)
    (junk : Nat → Option CStr)
    (hlook : lookup (tokens_get_token tokens 0) = -1)
    (hexe : (get_exe_file (sys.access_x s) sys.path_env (tokens_get_token tokens 0)).1 = some exe)
    (hmalloc : sys.malloc
      (s.emit (get_exe_file (sys.access_x s) sys.path_env (tokens_get_token tokens 0)).2)
      ((tokens.length + 1) * sys.sizeof_char_ptr) = .ok junk)
    (hfork : sys.fork
      (s.emit (get_exe_file (sys.access_x s) sys.path_env (tokens_get_token tokens 0)).2) = 0) :
    (build_args tokens junk).length = tokens.length + 1 ∧
    (∀ (i : Nat) (hi : i < tokens.length), (build_args tokens junk)[i]? = some (some tokens[i])) ∧
    (build_args tokens junk)[tokens.length]? = some none ∧
    dispatch sys s tokens =
      match sys.execv
          (s.emit ((get_exe_file (sys.access_x s) sys.path_env (tokens_get_token tokens 0)).2 ++
            [Event.fork]))
          exe (build_args tokens junk) with
      | none =>
        .replaced exe (build_args tokens junk)
          (s.emit ((get_exe_file (sys.access_x s) sys.path_env (tokens_get_token tokens 0)).2 ++
            [Event.fork, Event.execv exe (build_args tokens junk)]))
      | some errno =>
        .exited 1
          (s.emit ((get_exe_file (sys.access_x s) sys.path_env (tokens_get_token tokens 0)).2 ++
            [Event.fork, Event.execv exe (build_args tokens junk),
              Event.stderr (error_text sys errno)])) := by
  refine ⟨?_, ?_, ?_, ?_⟩
  · simp [build_args_eq]
  · intro i hi
    rw [build_args_eq, List.getElem?_append_left (by simpa using hi)]
    simp [hi]
  · rw [build_args_eq, List.getElem?_append_right (by simp)]
    simp
  · rw [dispatch_found sys s tokens exe junk hlook hexe hmalloc, if_pos hfork]

/-- C9 at a concrete input: in the child, the line "ls -l" resolved to
"/bin/ls" is executed with the vector "ls", "-l", NULL. -/
theorem execv_argument_vector_witness :
    dispatch demo_child demo_state ["ls".data, "-l".data] =
      .replaced "/bin/ls".data [some "ls".data, some "-l".data, none]
        { shell_is_interactive := true, cwd := "/".data, line_num := 0,
          trace := [Event.stdout "0: ".data, Event.getenv "PATH".data,
            Event.access "/usr/bin/ls".data, Event.access "/bin/ls".data, Event.fork,
            Event.execv "/bin/ls".data [some "ls".data, some "-l".data, none]] } :=
  (execv_argument_vector demo_child demo_state ["ls".data, "-l".data] "/bin/ls".data
    (fun _ => some "junk".data) (by decide)
    (by rw [show tokens_get_token ["ls".data, "-l".data] 0 = some "ls".data from rfl]
        exact congrArg Prod.fst demo_ls_resolved)
    rfl rfl).2.2.2.trans
    (by rw [show tokens_get_token ["ls".data, "-l".data] 0 = some "ls".data from rfl]
        rw [show get_exe_file (demo_child.access_x demo_state) demo_child.path_env
          (some "ls".data) = _ from demo_ls_resolved]
        decide)

end Shell
